import Mathlib

/-!
Verification of the pydesim discrete-event simulation kernel
(`pydesim/simulator.py`) via a shallow embedding.

Numbers: simulated time and delays are Python floats used as exact
quantities by the kernel (only `+` and comparisons); we embed them as
integers (`Int`); the kernel applies only `+` and order
comparisons to times, so every claim's content is preserved.  Event payloads (`args`/`kwargs`) are opaque to the
kernel and are embedded as naturals.

Mutability: Python's `_Event` objects are shared between the heap and the
`__evids` dict, and `event.remove()` mutates the shared object.  We keep
the queue as the single owner of event records; `__evids` is embedded as
the list of its keys, and the dict's value lookup is realized by searching
the queue (`Kernel.lookupEvid`), which is where the shared object lives.

The `heapq` binary heap is embedded as a list kept sorted under
`_Event.__lt__`'s order, so `heappush` is ordered insertion and `heappop`
takes the head.  `_Event.__lt__` is a total order on events with distinct
`(stime, id)` keys, and ids are allocated freshly, so the sorted list is
observationally equivalent to the heap (same multiset, same pop order).

Handlers are arbitrary Python callables; their kernel-visible effects are
calls back into `schedule` (`add_event`) and `cancel` (`remove_event`).
We embed a handler as a finite program of such calls (`Handler`).  The
dispatch loop, which need not terminate in Python, takes explicit fuel.
-/

/-- Exceptions raised by the embedded code. -/
inductive PyError where
  /-- retval of `raise ValueError('negative delay disallowed')` in `add_event`. -/
  | negativeDelay
  /-- a `KeyError` from a failed `del d[k]` or `d[k]` on a dict. -/
  | keyError
  /-- the `raise KeyError('pop from empty queue')` in `_next_event`. -/
  | emptyQueue
  /-- failure of the `assert event.stime >= self.__stime` in `_next_event`. -/
  | assertionError
deriving Repr, DecidableEq

/-- The kernel-visible behaviour of a handler: a finite sequence of
calls back into the kernel (`sim.schedule` / `sim.cancel`), executed when
the handler is invoked.  `schedH` schedules with a handler, `schedN`
schedules with handler `None`. -/
inductive Handler where
  | done
  | schedH (delay : Int) (h : Handler) (rest : Handler)
  | schedN (delay : Int) (rest : Handler)
  | cancel (evid : Nat) (rest : Handler)
deriving Repr, DecidableEq

/-- Embedding of `_Event`: `id`, `stime` (the fire time), `fn` (the
handler, possibly `None`), `args`, `kwargs`, and the `removed` tombstone
set by `_Event.remove()`. -/
structure A_Event where
  id : Nat
  stime : Int
  fn : Option Handler
  args : List Nat
  kwargs : List (String × Nat)
  removed : Bool
deriving Repr, DecidableEq

/-- Embedding of `_Event.__lt__`:
`self.__stime < other.stime or (self.__stime == other.stime and self.__id < other.id)`. -/
def A_Event.lt (a b : A_Event) : Prop :=
  a.stime < b.stime ∨ (a.stime = b.stime ∧ a.id < b.id)

instance (a b : A_Event) : Decidable (A_Event.lt a b) :=
  inferInstanceAs (Decidable (a.stime < b.stime ∨ (a.stime = b.stime ∧ a.id < b.id)))

/-- Embedding of `heapq.heappush` on the sorted-list representation of the
heap: ordered insertion under `_Event.__lt__`. -/
def heappush : List A_Event → A_Event → List A_Event
  | [], ev => [ev]
  | e :: rest, ev => if A_Event.lt ev e then ev :: e :: rest else e :: heappush rest ev

/-- Effect of `event.remove()` on the queue: the heap and the id-index
share the event object, so tombstoning is visible in the heap. -/
def markRemoved (queue : List A_Event) (evid : Nat) : List A_Event :=
  queue.map (fun e => if e.id == evid then { e with removed := true } else e)

/-- Embedding of a stop predicate.  The only predicates the code ever
registers are the closures `lambda kern: stime_limit < kern.stime`
installed by `Kernel.setup`, so a predicate is determined by its limit. -/
structure StopPred where
  stime_limit : Int
deriving Repr, DecidableEq

/-- Embedding of the `Kernel` state (`Kernel.__init__`). `evids` is the
key set of the `__evids` dict (see the module comment), `next_evid` the
state of the `itertools.count()` id allocator. -/
structure Kernel where
  queue : List A_Event
  stime : Int
  evids : List Nat
  next_evid : Nat
  num_events : Nat
  queue_size : Int
  stop_predicates : List StopPred
deriving Repr, DecidableEq

/-- Embedding of `Kernel.__init__`. -/
def Kernel.initial : Kernel :=
  { queue := [], stime := 0, evids := [], next_evid := 0, num_events := 0,
    queue_size := 0, stop_predicates := [] }

/-- Embedding of the `Kernel.empty` property: `self.__queue_size == 0`. -/
def Kernel.empty (k : Kernel) : Bool := k.queue_size == 0

/-- Embedding of `Kernel.add_event`. -/
def Kernel.add_event (k : Kernel) (delay : Int) (handler : Option Handler)
    (args : List Nat) (kwargs : Option (List (String × Nat))) :
    Except PyError (Kernel × Nat) :=
  if delay < 0 then .error .negativeDelay
  else
    let kw := kwargs.getD []
    let event : A_Event :=
      { id := k.next_evid, stime := k.stime + delay, fn := handler,
        args := args, kwargs := kw, removed := false }
    let k1 : Kernel :=
      { k with evids := k.evids ++ [event.id],
               queue := heappush k.queue event,
               queue_size := k.queue_size + 1,
               next_evid := k.next_evid + 1 }
    .ok (k1, event.id)

/-- Embedding of `self.__evids.get(evid, None)`: the dict stores
references to the event objects held by the heap, so the value lookup is
realized through the queue. -/
def Kernel.lookupEvid (k : Kernel) (evid : Nat) : Option A_Event :=
  if k.evids.contains evid then k.queue.find? (fun e => e.id == evid) else none

/-- Embedding of `Kernel.remove_event`. -/
def Kernel.remove_event (k : Kernel) (evid : Nat) : Kernel × Option A_Event :=
  match k.lookupEvid evid with
  | none => (k, none)
  | some event =>
    let k1 := { k with evids := k.evids.filter (fun i => i != evid) }
    if event.removed then (k1, none)
    else
      let k2 : Kernel :=
        { k1 with queue := markRemoved k1.queue evid,
                  queue_size := k1.queue_size - 1 }
      (k2, some { event with removed := true })

/-- The `while self.__queue:` loop body of `Kernel._next_event`, made
structurally recursive over the queue.  Returns the updated
`(queue, stime, evids, queue_size)` together with the popped live event. -/
def nextEventGo (stime : Int) (evids : List Nat) (queue_size : Int) :
    List A_Event → Except PyError (List A_Event × Int × List Nat × Int × A_Event)
  | [] => .error .emptyQueue
  | event :: rest =>
    if event.removed then nextEventGo stime evids queue_size rest
    else if event.stime < stime then .error .assertionError
    else if ! evids.contains event.id then .error .keyError
    else .ok (rest, event.stime, evids.filter (fun i => i != event.id),
              queue_size - 1, event)

/-- Embedding of `Kernel._next_event`. -/
def Kernel.next_event (k : Kernel) : Except PyError (Kernel × A_Event) :=
  match nextEventGo k.stime k.evids k.queue_size k.queue with
  | .error e => .error e
  | .ok (q, st, ev, qs, event) =>
    .ok ({ k with queue := q, stime := st, evids := ev, queue_size := qs }, event)

/-- Evaluation of a registered stop predicate, i.e. of the closure
`lambda kern: stime_limit < kern.stime` installed by `Kernel.setup`. -/
def StopPred.eval (p : StopPred) (k : Kernel) : Bool :=
  decide (p.stime_limit < k.stime)

/-- Embedding of `Kernel._test_stop`. -/
def Kernel.test_stop (k : Kernel) : Bool :=
  k.stop_predicates.any (fun p => p.eval k)

/-- Embedding of `Kernel.setup` (`stime_limit=None` default). -/
def Kernel.setup (k : Kernel) (stime_limit : Option Int) : Kernel :=
  match stime_limit with
  | none => k
  | some lim =>
    if 0 < lim then { k with stop_predicates := k.stop_predicates ++ [⟨lim⟩] }
    else k

/-- Execution of a handler program against the kernel: each op is a call
back into `add_event` (`sim.schedule`) or `remove_event` (`sim.cancel`).
An exception from `add_event` propagates. -/
def Handler.exec : Handler → Kernel → Except PyError Kernel
  | .done, k => .ok k
  | .schedH d h rest, k =>
    match k.add_event d (some h) [] none with
    | .error e => .error e
    | .ok (k1, _) => rest.exec k1
  | .schedN d rest, k =>
    match k.add_event d none [] none with
    | .error e => .error e
    | .ok (k1, _) => rest.exec k1
  | .cancel evid rest, k => rest.exec (k.remove_event evid).1

/-- Execution of an optional callback (`if init: init(sim)` and similar). -/
def execOptCallback : Option Handler → Kernel → Except PyError Kernel
  | none, k => .ok k
  | some h, k => h.exec k

/-- Outcome of a dispatch loop. -/
inductive RunOutcome where
  /-- retval when the loop ended with `while not self.empty` false. -/
  | drained
  /-- retval when a stop predicate vetoed a popped event (`break`). -/
  | stoppedByPred
  /-- an exception propagated out of the loop. -/
  | failed (e : PyError)
  /-- the fuel ran out (the Python loop need not terminate). -/
  | outOfFuel
deriving Repr, DecidableEq

/-- Trace of the `while not self.empty` loop of `Kernel.run`:
the final kernel state, the live events popped in order, the events whose
handler was actually started, and the event (if any) whose dispatch a
stop predicate vetoed. -/
structure RunTrace where
  kernel : Kernel
  popped : List A_Event
  invoked : List A_Event
  rejected : Option A_Event
  outcome : RunOutcome
deriving Repr, DecidableEq

/-- Embedding of the dispatch loop of `Kernel.run` (step 3), with fuel.
On an exception the Python heap may already have dropped tombstoned
entries; no claim depends on the post-exception state, so the trace
carries the state at the start of the failing iteration. -/
def runLoop : Nat → Kernel → RunTrace
  | 0, k => ⟨k, [], [], none, .outOfFuel⟩
  | fuel + 1, k =>
    if k.empty then ⟨k, [], [], none, .drained⟩
    else
      match k.next_event with
      | .error e => ⟨k, [], [], none, .failed e⟩
      | .ok (k1, event) =>
        if k1.test_stop then ⟨k1, [event], [], some event, .stoppedByPred⟩
        else
          match event.fn with
          | none =>
            let t := runLoop fuel k1
            { t with popped := event :: t.popped }
          | some h =>
            match h.exec k1 with
            | .error e => ⟨k1, [event], [event], none, .failed e⟩
            | .ok k2 =>
              let k3 := { k2 with num_events := k2.num_events + 1 }
              let t := runLoop fuel k3
              { t with popped := event :: t.popped, invoked := event :: t.invoked }

/-- Result of `Kernel.run`: the loop trace plus whether the `fin`
callback was invoked. -/
structure RunResult where
  kernel : Kernel
  popped : List A_Event
  invoked : List A_Event
  rejected : Option A_Event
  outcome : RunOutcome
  finCalled : Bool
deriving Repr, DecidableEq

/-- Embedding of `Kernel.run(sim, init, fin)`.  `dataInit` is the root
model's optional `initialize` capability (`hasattr(sim.data, 'initialize')`). -/
def Kernel.run (fuel : Nat) (k : Kernel)
    (dataInit initCb finCb : Option Handler) : RunResult :=
  match execOptCallback dataInit k with
  | .error e => ⟨k, [], [], none, .failed e, false⟩
  | .ok k1 =>
    match execOptCallback initCb k1 with
    | .error e => ⟨k1, [], [], none, .failed e, false⟩
    | .ok k2 =>
      let t := runLoop fuel k2
      match t.outcome with
      | .failed e => ⟨t.kernel, t.popped, t.invoked, t.rejected, .failed e, false⟩
      | .outOfFuel => ⟨t.kernel, t.popped, t.invoked, t.rejected, .outOfFuel, false⟩
      | o =>
        match execOptCallback finCb t.kernel with
        | .error e => ⟨t.kernel, t.popped, t.invoked, t.rejected, .failed e, finCb.isSome⟩
        | .ok k3 => ⟨k3, t.popped, t.invoked, t.rejected, o, finCb.isSome⟩

/-- Parameter bags are string-keyed dicts; the kernel never reads the
values, so they are embedded as naturals. -/
abbrev ParamBag := List (String × Nat)

/-- The `params` argument of `simulate`: `None`, a single bag, or a list
of bags (`isinstance(params, list)`). -/
inductive ParamsArg where
  | nothing
  | single (p : ParamBag)
  | many (ps : List ParamBag)
deriving Repr, DecidableEq

/-- Observable result of one simulation run: the simulator context wraps
the kernel (here: the run result) and its parameter bag. -/
structure SimContext where
  result : RunResult
  params : ParamBag
deriving Repr, DecidableEq

/-- Return value of `simulate`: a single simulator context or a list. -/
inductive SimResult where
  | one (s : SimContext)
  | many (rs : List SimContext)
deriving Repr, DecidableEq

/-- One run of the body of `simulate`: fresh `Kernel()`, a fresh
`Simulator` context over the given bag, `kernel.setup(stime_limit=...)`,
then `kernel.run(sim, init=init, fin=fin)`. -/
def simulateOne (fuel : Nat) (dataInit initCb finCb : Option Handler)
    (p : ParamBag) (stime_limit : Int) : SimContext :=
  let kernel := Kernel.initial
  let kernel := kernel.setup (some stime_limit)
  { result := Kernel.run fuel kernel dataInit initCb finCb, params := p }

/-- Embedding of the top-level `simulate` function. -/
def simulate (fuel : Nat) (dataInit initCb finCb : Option Handler)
    (params : ParamsArg) (stime_limit : Option Int) : SimResult :=
  let lim := stime_limit.getD 0
  match params with
  | .many ps =>
    .many (ps.foldl
      (fun results p => results ++ [simulateOne fuel dataInit initCb finCb p lim]) [])
  | .single p => .one (simulateOne fuel dataInit initCb finCb p lim)
  | .nothing => .one (simulateOne fuel dataInit initCb finCb [] lim)

/-!
Embedding of the model-composition API: `HandlersDict`, `_ModulesManager`
and `Model`.  Models are identified by naturals (object identity); a
value stored in a children/connections container is a model reference or
a tuple of model references.
-/

/-- Value stored in a `_ModulesManager` container: a model or a tuple of
models (object identities as naturals). -/
inductive ChildVal where
  | single (modelId : Nat)
  | tuple (modelIds : List Nat)
deriving Repr, DecidableEq

/-- Python dict assignment `c[k] = v`: replace in place if the key is
present, else append. -/
def dictSet (c : List (String × ChildVal)) (key : String) (v : ChildVal) :
    List (String × ChildVal) :=
  if c.any (fun kv => kv.1 == key) then
    c.map (fun kv => if kv.1 == key then (key, v) else kv)
  else c ++ [(key, v)]

namespace ModulesManager

/-- Embedding of `_ModulesManager.add`: `if name in container: del`, then
`container[name] = module`.  Nothing else is touched — in particular no
parent notification happens. -/
def add (c : List (String × ChildVal)) (name : String) (module : ChildVal) :
    List (String × ChildVal) :=
  c.filter (fun kv => kv.1 != name) ++ [(name, module)]

/-- Embedding of `_ModulesManager.remove`: `del` swallowing `KeyError`. -/
def remove (c : List (String × ChildVal)) (name : String) :
    List (String × ChildVal) :=
  c.filter (fun kv => kv.1 != name)

/-- Embedding of `_ModulesManager.update`: remove every name in `kwargs`,
then `container.update(kwargs)`. -/
def update (c : List (String × ChildVal)) (kwargs : List (String × ChildVal)) :
    List (String × ChildVal) :=
  let c1 := kwargs.foldl (fun acc kv => remove acc kv.1) c
  kwargs.foldl (fun acc kv => dictSet acc kv.1 kv.2) c1

/-- Embedding of `_ModulesManager.get(self, name)`:
`return self.__container[name]` — the signature takes no default, and an
absent key raises `KeyError`. -/
def get (c : List (String × ChildVal)) (name : String) :
    Except PyError ChildVal :=
  match c.find? (fun kv => kv.1 == name) with
  | some kv => .ok kv.2
  | none => .error .keyError

/-- Embedding of `_ModulesManager.all`: `dict(self.__container)`. -/
def all (c : List (String × ChildVal)) : List (String × ChildVal) := c

/-- Flattening of one container value as done by the local `add` closure
inside `_ModulesManager.modules`. -/
def ChildVal.flatten : ChildVal → List Nat
  | .single m => [m]
  | .tuple ms => ms

/-- Embedding of `_ModulesManager.modules`. -/
def modules (c : List (String × ChildVal)) : List Nat :=
  c.foldl (fun acc kv => acc ++ ChildVal.flatten kv.2) []

end ModulesManager

/-- Embedding of `HandlersDict.get(self, item)`:
`return self.__handlers[item]` — no default parameter, raises on an
absent key. -/
def HandlersDict.get (handlers : List (String × Nat)) (item : String) :
    Except PyError Nat :=
  match handlers.find? (fun kv => kv.1 == item) with
  | some kv => .ok kv.2
  | none => .error .keyError

/-- Embedding of a `Model` object's own state: `__parent` (set only in
`__init__`, never reassigned anywhere in the source), the `__children`
container and the `__modules` (connections) container. -/
structure PyModel where
  parent : Option Nat
  children : List (String × ChildVal)
  modules : List (String × ChildVal)
deriving Repr, DecidableEq

/-- Effect on a model of `model.children.add(name, child)`: the manager
mutates only the children dict. -/
def PyModel.childrenAdd (m : PyModel) (name : String) (child : ChildVal) :
    PyModel :=
  { m with children := ModulesManager.add m.children name child }

/-- Effect on a model of `model.connections.add(name, peer)`: the raw
peer reference is stored; the source defines no connection record type. -/
def PyModel.connectionsAdd (m : PyModel) (name : String) (peer : ChildVal) :
    PyModel :=
  { m with modules := ModulesManager.add m.modules name peer }

/-- A store of model objects, keyed by identity. -/
abbrev World := List (Nat × PyModel)

/-- Lookup of a model object by identity. -/
def World.getModel (w : World) (modelId : Nat) : Option PyModel :=
  match w.find? (fun im => im.1 == modelId) with
  | some im => some im.2
  | none => none

/-- Effect on the object store of `P.children.add(name, child)` for the
model with identity `pid`: only `P`'s children dict is mutated; no other
object — in particular no child model's `__parent` — is touched, because
the source defines no parent notification (`Model` has no `_set_parent`
and `__parent` is assigned only in `Model.__init__`). -/
def World.childrenAdd (w : World) (pid : Nat) (name : String)
    (child : ChildVal) : World :=
  w.map (fun im =>
    if im.1 == pid then (im.1, im.2.childrenAdd name child) else im)

/-!
Kernel invariants.  `Inv` is the heap-and-allocator invariant maintained
by the public operations from `Kernel.__init__` onwards: the physical
queue is sorted under `_Event.__lt__`, all queued ids were allocated by
the id counter, and no queued event fires in the past.
-/

/-- Heap/allocator invariant of a kernel state. -/
def Kernel.Inv (k : Kernel) : Prop :=
  k.queue.Pairwise A_Event.lt ∧
  (∀ e ∈ k.queue, e.id < k.next_evid) ∧
  (∀ e ∈ k.queue, k.stime ≤ e.stime)

instance (k : Kernel) : Decidable (Kernel.Inv k) :=
  inferInstanceAs (Decidable (_ ∧ _ ∧ _))

/-- Statement that `e` precedes, in the event order, everything the
kernel can still pop: `e` fired no later than now, its id is spent, and
it precedes every queued event. -/
def Dominated (e : A_Event) (k : Kernel) : Prop :=
  e.stime ≤ k.stime ∧ e.id < k.next_evid ∧ ∀ x ∈ k.queue, A_Event.lt e x

/-- Statement that the event id `evid` is dead: every queued event
carrying it is tombstoned, and the id allocator will never hand it out
again. -/
def NoLive (evid : Nat) (k : Kernel) : Prop :=
  (∀ e ∈ k.queue, e.id = evid → e.removed = true) ∧ evid < k.next_evid

instance (evid : Nat) (k : Kernel) : Decidable (NoLive evid k) :=
  inferInstanceAs (Decidable (_ ∧ _))


/-- Sanity of the id-index: every live queued event is indexed, and ids
are not duplicated in the physical heap.  Both hold from
`Kernel.__init__` onwards because ids are allocated freshly and
`remove_event` unindexes exactly the events it tombstones. -/
def IdsInv (k : Kernel) : Prop :=
  (∀ e ∈ k.queue, e.removed = false → k.evids.contains e.id = true) ∧
  (k.queue.map A_Event.id).Nodup

instance (k : Kernel) : Decidable (IdsInv k) :=
  inferInstanceAs (Decidable (_ ∧ _))


/-- Demo kernel for claim C1: two live events at the same fire-time. -/
def demoC1 : Kernel :=
  { queue := [⟨0, 5, some .done, [], [], false⟩, ⟨1, 5, some .done, [], [], false⟩],
    stime := 0, evids := [0, 1], next_evid := 2, num_events := 0,
    queue_size := 2, stop_predicates := [] }

/-- Demo kernel for claim C2: `setup(stime_limit=10)` followed by
`schedule(15, a)` (the spec's stop-predicate scenario). -/
def demoC2 : Kernel :=
  { queue := [⟨0, 15, some .done, [], [], false⟩],
    stime := 0, evids := [0], next_evid := 1, num_events := 0,
    queue_size := 1, stop_predicates := [⟨10⟩] }

/-- Demo kernel for claim C3: events id 1 at time 5 and id 0 at time 10,
with id 0 about to be cancelled. -/
def demoC3 : Kernel :=
  { queue := [⟨1, 5, some .done, [], [], false⟩, ⟨0, 10, some .done, [], [], false⟩],
    stime := 0, evids := [0, 1], next_evid := 2, num_events := 0,
    queue_size := 2, stop_predicates := [] }

/-- Demo kernel for claim C10: a handler-less event followed by a normal
one. -/
def demoC10 : Kernel :=
  { queue := [⟨0, 3, none, [], [], false⟩, ⟨1, 4, some .done, [], [], false⟩],
    stime := 0, evids := [0, 1], next_evid := 2, num_events := 0,
    queue_size := 2, stop_predicates := [] }


/-!
Order-theoretic facts about `_Event.__lt__` and the queue operations.
-/

theorem A_Event.lt_trans {a b c : A_Event} (hab : A_Event.lt a b)
    (hbc : A_Event.lt b c) : A_Event.lt a c := by
  rcases hab with h | ⟨h1, h2⟩ <;> rcases hbc with g | ⟨g1, g2⟩ <;>
    unfold A_Event.lt <;> first
      | exact Or.inl (by omega)
      | exact Or.inr ⟨by omega, by omega⟩

theorem A_Event.lt_irrefl (a : A_Event) : ¬ A_Event.lt a a := by
  unfold A_Event.lt; omega

theorem A_Event.lt_total_of_ne_id {a b : A_Event} (h : a.id ≠ b.id) :
    A_Event.lt a b ∨ A_Event.lt b a := by
  unfold A_Event.lt; omega

theorem heappush_mem (q : List A_Event) (ev x : A_Event) :
    x ∈ heappush q ev ↔ x ∈ q ∨ x = ev := by
  induction q with
  | nil => simp [heappush]
  | cons e rest ih =>
    simp only [heappush]
    split
    · simp only [List.mem_cons]; tauto
    · simp only [List.mem_cons, ih]; tauto

theorem heappush_length (q : List A_Event) (ev : A_Event) :
    (heappush q ev).length = q.length + 1 := by
  induction q with
  | nil => simp [heappush]
  | cons e rest ih =>
    simp only [heappush]
    split <;> simp [ih]

theorem heappush_pairwise (q : List A_Event) (ev : A_Event)
    (hq : q.Pairwise A_Event.lt)
    (htot : ∀ x ∈ q, A_Event.lt x ev ∨ A_Event.lt ev x) :
    (heappush q ev).Pairwise A_Event.lt := by
  induction q with
  | nil => simp [heappush]
  | cons e rest ih =>
    rcases List.pairwise_cons.mp hq with ⟨he, hrest⟩
    simp only [heappush]
    split
    case isTrue hlt =>
      refine List.pairwise_cons.mpr ⟨?_, hq⟩
      intro x hx
      rcases List.mem_cons.mp hx with rfl | hx
      · exact hlt
      · exact A_Event.lt_trans hlt (he x hx)
    case isFalse hnlt =>
      refine List.pairwise_cons.mpr ⟨?_, ?_⟩
      · intro x hx
        rcases (heappush_mem rest ev x).mp hx with hx | rfl
        · exact he x hx
        · rcases htot e (List.mem_cons_self e rest) with h | h
          · exact h
          · exact absurd h hnlt
      · exact ih hrest (fun x hx => htot x (List.mem_cons_of_mem _ hx))

theorem markRemoved_mem {q : List A_Event} {i : Nat} {x : A_Event}
    (hx : x ∈ markRemoved q i) :
    ∃ y ∈ q, x.stime = y.stime ∧ x.id = y.id := by
  rcases List.mem_map.mp hx with ⟨y, hy, rfl⟩
  refine ⟨y, hy, ?_, ?_⟩ <;> split <;> rfl

theorem markRemoved_pairwise {q : List A_Event} {i : Nat}
    (hq : q.Pairwise A_Event.lt) :
    (markRemoved q i).Pairwise A_Event.lt := by
  refine hq.map _ ?_
  intro a b hab
  have hs : ∀ e : A_Event,
      (if e.id == i then { e with removed := true } else e).stime = e.stime ∧
      (if e.id == i then { e with removed := true } else e).id = e.id := by
    intro e; constructor <;> split <;> rfl
  rcases hab with h | ⟨h1, h2⟩
  · exact Or.inl (by rw [(hs a).1, (hs b).1]; exact h)
  · exact Or.inr ⟨by rw [(hs a).1, (hs b).1]; exact h1,
      by rw [(hs a).2, (hs b).2]; exact h2⟩

/-- Characterization of a successful `add_event`. -/
theorem add_event_ok_eq {k : Kernel} {d : Int} {h : Option Handler}
    {a : List Nat} {kw : Option (List (String × Nat))} {k1 : Kernel} {i : Nat}
    (hok : k.add_event d h a kw = .ok (k1, i)) :
    0 ≤ d ∧ i = k.next_evid ∧
    k1 = { k with evids := k.evids ++ [k.next_evid],
                  queue := heappush k.queue
                    { id := k.next_evid, stime := k.stime + d, fn := h,
                      args := a, kwargs := kw.getD [], removed := false },
                  queue_size := k.queue_size + 1,
                  next_evid := k.next_evid + 1 } := by
  unfold Kernel.add_event at hok
  split at hok
  · exact absurd hok (by simp)
  · next hge =>
    simp only [Except.ok.injEq, Prod.mk.injEq] at hok
    exact ⟨by omega, hok.2.symm, hok.1.symm⟩

/-- Preservation of `Inv` by a successful `add_event`. -/
theorem Inv_add_event {k k1 : Kernel} {d : Int} {h : Option Handler}
    {a : List Nat} {kw : Option (List (String × Nat))} {i : Nat}
    (hInv : k.Inv) (hok : k.add_event d h a kw = .ok (k1, i)) : k1.Inv := by
  obtain ⟨hd, rfl, rfl⟩ := add_event_ok_eq hok
  obtain ⟨hsort, hid, htime⟩ := hInv
  refine ⟨?_, ?_, ?_⟩
  · refine heappush_pairwise _ _ hsort ?_
    intro x hx
    exact A_Event.lt_total_of_ne_id (by have := hid x hx; simp; omega)
  · intro e he
    rcases (heappush_mem _ _ _).mp he with he | rfl
    · have := hid e he; simp; omega
    · simp
  · intro e he
    rcases (heappush_mem _ _ _).mp he with he | rfl
    · exact htime e he
    · simpa using hd

/-- Preservation of `Dominated` by a successful `add_event`. -/
theorem Dominated_add_event {e : A_Event} {k k1 : Kernel} {d : Int}
    {h : Option Handler} {a : List Nat} {kw : Option (List (String × Nat))}
    {i : Nat} (hDom : Dominated e k)
    (hok : k.add_event d h a kw = .ok (k1, i)) : Dominated e k1 := by
  obtain ⟨hd, rfl, rfl⟩ := add_event_ok_eq hok
  obtain ⟨ht, hi, hq⟩ := hDom
  refine ⟨ht, by simpa using Nat.lt_succ_of_lt hi, ?_⟩
  intro x hx
  rcases (heappush_mem _ _ _).mp hx with hx | rfl
  · exact hq x hx
  · unfold A_Event.lt; simp; omega

/-- Preservation of `NoLive` by a successful `add_event`. -/
theorem NoLive_add_event {evid : Nat} {k k1 : Kernel} {d : Int}
    {h : Option Handler} {a : List Nat} {kw : Option (List (String × Nat))}
    {i : Nat} (hNL : NoLive evid k)
    (hok : k.add_event d h a kw = .ok (k1, i)) : NoLive evid k1 := by
  obtain ⟨hd, rfl, rfl⟩ := add_event_ok_eq hok
  obtain ⟨hq, hi⟩ := hNL
  refine ⟨?_, by simpa using Nat.lt_succ_of_lt hi⟩
  intro x hx hxid
  rcases (heappush_mem _ _ _).mp hx with hx | rfl
  · exact hq x hx hxid
  · simp at hxid; omega

/-- Fields of the kernel untouched by a successful `add_event`. -/
theorem add_event_fields {k k1 : Kernel} {d : Int} {h : Option Handler}
    {a : List Nat} {kw : Option (List (String × Nat))} {i : Nat}
    (hok : k.add_event d h a kw = .ok (k1, i)) :
    k1.stime = k.stime ∧ k1.num_events = k.num_events ∧
    k1.stop_predicates = k.stop_predicates ∧ k.next_evid ≤ k1.next_evid := by
  obtain ⟨hd, rfl, rfl⟩ := add_event_ok_eq hok
  exact ⟨rfl, rfl, rfl, by simp⟩

/-- Shape of the state returned by `remove_event`: the queue is either
untouched or tombstone-marked, and the other observables besides the
id-index and the size counter are untouched. -/
theorem remove_event_state (k : Kernel) (evid : Nat) :
    ((k.remove_event evid).1.queue = k.queue ∨
      (k.remove_event evid).1.queue = markRemoved k.queue evid) ∧
    (k.remove_event evid).1.stime = k.stime ∧
    (k.remove_event evid).1.num_events = k.num_events ∧
    (k.remove_event evid).1.next_evid = k.next_evid ∧
    (k.remove_event evid).1.stop_predicates = k.stop_predicates := by
  unfold Kernel.remove_event
  rcases k.lookupEvid evid with _ | event
  · exact ⟨Or.inl rfl, rfl, rfl, rfl, rfl⟩
  · by_cases hr : event.removed <;> simp [hr]

/-- Preservation of `Inv` by `remove_event`. -/
theorem Inv_remove_event {k : Kernel} (evid : Nat) (hInv : k.Inv) :
    (k.remove_event evid).1.Inv := by
  obtain ⟨hsort, hid, htime⟩ := hInv
  obtain ⟨hq, hst, _, hnext, _⟩ := remove_event_state k evid
  rcases hq with hq | hq <;> rw [Kernel.Inv, hq, hst, hnext]
  · exact ⟨hsort, hid, htime⟩
  · refine ⟨markRemoved_pairwise hsort, ?_, ?_⟩ <;> intro e he <;>
      obtain ⟨y, hy, hys, hyi⟩ := markRemoved_mem he
    · rw [hyi]; exact hid y hy
    · rw [hys]; exact htime y hy

/-- Preservation of `Dominated` by `remove_event`. -/
theorem Dominated_remove_event {e : A_Event} {k : Kernel} (evid : Nat)
    (hDom : Dominated e k) : Dominated e (k.remove_event evid).1 := by
  obtain ⟨ht, hi, hq⟩ := hDom
  obtain ⟨hqs, hst, _, hnext, _⟩ := remove_event_state k evid
  rcases hqs with hqs | hqs <;> rw [Dominated, hqs, hst, hnext]
  · exact ⟨ht, hi, hq⟩
  · refine ⟨ht, hi, ?_⟩
    intro x hx
    obtain ⟨y, hy, hys, hyi⟩ := markRemoved_mem hx
    have := hq y hy
    unfold A_Event.lt at this ⊢
    omega

/-- Preservation of `NoLive` by `remove_event` (tombstones only get set,
never cleared). -/
theorem NoLive_remove_event {evid : Nat} {k : Kernel} (j : Nat)
    (hNL : NoLive evid k) : NoLive evid (k.remove_event j).1 := by
  obtain ⟨hq, hi⟩ := hNL
  obtain ⟨hqs, _, _, hnext, _⟩ := remove_event_state k j
  rcases hqs with hqs | hqs <;> rw [NoLive, hqs, hnext]
  · exact ⟨hq, hi⟩
  · refine ⟨?_, hi⟩
    intro x hx hxid
    rcases List.mem_map.mp hx with ⟨y, hy, rfl⟩
    by_cases hj : (y.id == j) = true
    · simp [hj]
    · simp only [hj, if_false, Bool.false_eq_true] at hxid ⊢
      exact hq y hy hxid

/-- Characterization of a successful `_next_event` search: the popped
event is a live member of the queue firing no earlier than now, the new
time is its fire-time, and the remaining queue is a subset; when the
queue was sorted, everything remaining comes strictly after the popped
event and stays sorted. -/
theorem nextEventGo_ok {st : Int} {ev : List Nat} {qs : Int}
    {q q' : List A_Event} {st' : Int} {ev' : List Nat} {qs' : Int}
    {e : A_Event}
    (h : nextEventGo st ev qs q = .ok (q', st', ev', qs', e)) :
    e ∈ q ∧ e.removed = false ∧ st ≤ e.stime ∧ st' = e.stime ∧
    (∀ x ∈ q', x ∈ q) ∧
    (q.Pairwise A_Event.lt →
      (∀ x ∈ q', A_Event.lt e x) ∧ q'.Pairwise A_Event.lt) := by
  induction q with
  | nil => exact absurd h (by simp [nextEventGo])
  | cons a rest ih =>
    unfold nextEventGo at h
    split at h
    · next hrem =>
      obtain ⟨h1, h2, h3, h4, h5, h6⟩ := ih h
      refine ⟨List.mem_cons_of_mem _ h1, h2, h3, h4,
        fun x hx => List.mem_cons_of_mem _ (h5 x hx), ?_⟩
      intro hp
      exact h6 (List.pairwise_cons.mp hp).2
    · split at h
      · exact absurd h (by simp)
      · split at h
        · exact absurd h (by simp)
        · next hrem hst hid =>
          simp only [Except.ok.injEq, Prod.mk.injEq] at h
          obtain ⟨rfl, rfl, _, _, rfl⟩ := h
          refine ⟨List.mem_cons_self _ _, by simpa using hrem, by omega,
            rfl, fun x hx => List.mem_cons_of_mem _ hx, ?_⟩
          intro hp
          rcases List.pairwise_cons.mp hp with ⟨ha, hrest⟩
          exact ⟨ha, hrest⟩

/-- Lift of `nextEventGo_ok` to `Kernel._next_event`. -/
theorem next_event_ok {k k1 : Kernel} {e : A_Event}
    (h : k.next_event = .ok (k1, e)) :
    e ∈ k.queue ∧ e.removed = false ∧ k.stime ≤ e.stime ∧
    k1.stime = e.stime ∧ k1.next_evid = k.next_evid ∧
    k1.num_events = k.num_events ∧
    k1.stop_predicates = k.stop_predicates ∧
    (∀ x ∈ k1.queue, x ∈ k.queue) ∧
    (k.queue.Pairwise A_Event.lt →
      (∀ x ∈ k1.queue, A_Event.lt e x) ∧ k1.queue.Pairwise A_Event.lt) := by
  unfold Kernel.next_event at h
  split at h
  · exact absurd h (by simp)
  · next q' st' ev' qs' event heq =>
    simp only [Except.ok.injEq, Prod.mk.injEq] at h
    obtain ⟨hk, he⟩ := h
    subst he
    subst hk
    obtain ⟨h1, h2, h3, h4, h5, h6⟩ := nextEventGo_ok heq
    exact ⟨h1, h2, h3, h4, rfl, rfl, rfl, h5, h6⟩

/-- Preservation of `Inv` by a successful `_next_event`, together with
dominance of the popped event over the residual state. -/
theorem Inv_next_event {k k1 : Kernel} {e : A_Event} (hInv : k.Inv)
    (h : k.next_event = .ok (k1, e)) : k1.Inv ∧ Dominated e k1 := by
  obtain ⟨hsort, hid, htime⟩ := hInv
  obtain ⟨h1, _, _, h4, h5, _, _, h8, h9⟩ := next_event_ok h
  obtain ⟨hlt, hsort1⟩ := h9 hsort
  constructor
  · refine ⟨hsort1, ?_, ?_⟩
    · intro x hx; rw [h5]; exact hid x (h8 x hx)
    · intro x hx
      have := hlt x hx
      unfold A_Event.lt at this
      omega
  · exact ⟨le_of_eq h4.symm, by rw [h5]; exact hid e h1, hlt⟩

/-- Preservation of `NoLive` by a successful `_next_event`. -/
theorem NoLive_next_event {evid : Nat} {k k1 : Kernel} {e : A_Event}
    (hNL : NoLive evid k) (h : k.next_event = .ok (k1, e)) :
    NoLive evid k1 := by
  obtain ⟨hq, hi⟩ := hNL
  obtain ⟨_, _, _, _, h5, _, _, h8, _⟩ := next_event_ok h
  exact ⟨fun x hx hxid => hq x (h8 x hx) hxid, h5 ▸ hi⟩

/-- A live event popped by `_next_event` cannot carry a dead id. -/
theorem next_event_not_noLive {evid : Nat} {k k1 : Kernel} {e : A_Event}
    (hNL : NoLive evid k) (h : k.next_event = .ok (k1, e)) :
    e.id ≠ evid := by
  obtain ⟨hq, _⟩ := hNL
  obtain ⟨h1, h2, _⟩ := next_event_ok h
  intro hid
  rw [hq e h1 hid] at h2
  exact Bool.true_eq_false.mp h2

/-- Preservation properties of handler execution: a handler body only
calls `schedule`/`cancel`, so it preserves the heap invariant, dominance
facts, dead ids, the simulated time, the event counter and the predicate
list, and never decreases the id allocator. -/
theorem exec_ok_props (h : Handler) : ∀ (k k1 : Kernel), h.exec k = .ok k1 →
    (k.Inv → k1.Inv) ∧ (∀ e, Dominated e k → Dominated e k1) ∧
    (∀ evid, NoLive evid k → NoLive evid k1) ∧
    k1.stime = k.stime ∧ k1.num_events = k.num_events ∧
    k1.stop_predicates = k.stop_predicates ∧ k.next_evid ≤ k1.next_evid := by
  induction h with
  | done =>
    intro k k1 hok
    obtain rfl : k = k1 := by simpa [Handler.exec] using hok
    exact ⟨id, fun _ => id, fun _ => id, rfl, rfl, rfl, le_refl _⟩
  | schedH d hh rest ihh ihrest =>
    intro k k1 hok
    unfold Handler.exec at hok
    cases heq : k.add_event d (some hh) [] none with
    | error e => rw [heq] at hok; exact absurd hok (by simp)
    | ok v =>
      obtain ⟨k2, i⟩ := v
      rw [heq] at hok
      obtain ⟨hI, hD, hN, hs, hn, hp, hnx⟩ := ihrest k2 k1 hok
      obtain ⟨f1, f2, f3, f4⟩ := add_event_fields heq
      exact ⟨fun hInv => hI (Inv_add_event hInv heq),
        fun e hDom => hD e (Dominated_add_event hDom heq),
        fun evid hNL => hN evid (NoLive_add_event hNL heq),
        by rw [hs, f1], by rw [hn, f2], by rw [hp, f3], le_trans f4 hnx⟩
  | schedN d rest ihrest =>
    intro k k1 hok
    unfold Handler.exec at hok
    cases heq : k.add_event d none [] none with
    | error e => rw [heq] at hok; exact absurd hok (by simp)
    | ok v =>
      obtain ⟨k2, i⟩ := v
      rw [heq] at hok
      obtain ⟨hI, hD, hN, hs, hn, hp, hnx⟩ := ihrest k2 k1 hok
      obtain ⟨f1, f2, f3, f4⟩ := add_event_fields heq
      exact ⟨fun hInv => hI (Inv_add_event hInv heq),
        fun e hDom => hD e (Dominated_add_event hDom heq),
        fun evid hNL => hN evid (NoLive_add_event hNL heq),
        by rw [hs, f1], by rw [hn, f2], by rw [hp, f3], le_trans f4 hnx⟩
  | cancel j rest ihrest =>
    intro k k1 hok
    unfold Handler.exec at hok
    obtain ⟨hI, hD, hN, hs, hn, hp, hnx⟩ := ihrest (k.remove_event j).1 k1 hok
    obtain ⟨_, f1, f2, f3, f4⟩ := remove_event_state k j
    exact ⟨fun hInv => hI (Inv_remove_event j hInv),
      fun e hDom => hD e (Dominated_remove_event j hDom),
      fun evid hNL => hN evid (NoLive_remove_event j hNL),
      by rw [hs, f1], by rw [hn, f2], by rw [hp, f4],
      by rw [← f3]; exact hnx⟩

/-- Preservation properties of an optional callback. -/
theorem execOptCallback_ok_props {oh : Option Handler} {k k1 : Kernel}
    (hok : execOptCallback oh k = .ok k1) :
    (k.Inv → k1.Inv) ∧ (∀ e, Dominated e k → Dominated e k1) ∧
    (∀ evid, NoLive evid k → NoLive evid k1) ∧
    k1.stime = k.stime ∧ k1.num_events = k.num_events ∧
    k1.stop_predicates = k.stop_predicates ∧ k.next_evid ≤ k1.next_evid := by
  cases oh with
  | none =>
    obtain rfl : k = k1 := by simpa [execOptCallback] using hok
    exact ⟨id, fun _ => id, fun _ => id, rfl, rfl, rfl, le_refl _⟩
  | some h => exact exec_ok_props h k k1 hok

/-- Preservation of `Dominated` by a successful `_next_event`. -/
theorem Dominated_next_event {e : A_Event} {k k1 : Kernel} {ev : A_Event}
    (hDom : Dominated e k) (h : k.next_event = .ok (k1, ev)) :
    Dominated e k1 := by
  obtain ⟨ht, hi, hq⟩ := hDom
  obtain ⟨h1, _, h3, h4, h5, _, _, h8, _⟩ := next_event_ok h
  refine ⟨?_, by rw [h5]; exact hi, fun x hx => hq x (h8 x hx)⟩
  have := hq ev h1
  unfold A_Event.lt at this
  omega

/-- Combined properties of the dispatch loop, proved by one induction on
the fuel: dominance is transported to every popped event, the popped
sequence is sorted under `_Event.__lt__` whenever the heap invariant
holds at entry, dead ids are never popped, invoked events are popped
events with a handler, `num_events` counts exactly the completed handler
invocations on clean termination, a stop-predicate exit records the
rejected event (its fire-time being the final simulated time, with no
handler invocation for it), and a drained exit invokes exactly the popped
events that carry a handler. -/
theorem runLoop_props : ∀ (fuel : Nat) (k : Kernel),
    (∀ e, Dominated e k → ∀ x ∈ (runLoop fuel k).popped, A_Event.lt e x) ∧
    (k.Inv → (runLoop fuel k).popped.Pairwise A_Event.lt) ∧
    (∀ evid, NoLive evid k → ∀ x ∈ (runLoop fuel k).popped, x.id ≠ evid) ∧
    (∀ x ∈ (runLoop fuel k).invoked,
      x ∈ (runLoop fuel k).popped ∧ x.fn.isSome = true) ∧
    ((runLoop fuel k).outcome = .drained ∨
        (runLoop fuel k).outcome = .stoppedByPred →
      (runLoop fuel k).kernel.num_events =
        k.num_events + (runLoop fuel k).invoked.length) ∧
    ((runLoop fuel k).outcome = .stoppedByPred →
      ∃ er, (runLoop fuel k).rejected = some er ∧
        (runLoop fuel k).kernel.stime = er.stime ∧
        er ∈ (runLoop fuel k).popped ∧
        (k.Inv → ∀ x ∈ (runLoop fuel k).invoked, A_Event.lt x er)) ∧
    ((runLoop fuel k).outcome = .drained →
      (runLoop fuel k).rejected = none ∧
      (runLoop fuel k).invoked =
        (runLoop fuel k).popped.filter (fun x => x.fn.isSome)) := by
  intro fuel
  induction fuel with
  | zero => intro k; simp [runLoop]
  | succ fuel ih =>
    intro k
    by_cases hem : k.empty = true
    · have hstep : runLoop (fuel + 1) k = ⟨k, [], [], none, .drained⟩ := by
        simp [runLoop, hem]
      rw [hstep]
      simp
    · cases hne : k.next_event with
      | error err =>
        have hstep : runLoop (fuel + 1) k = ⟨k, [], [], none, .failed err⟩ := by
          simp [runLoop, hem, hne]
        rw [hstep]
        simp
      | ok pair =>
        obtain ⟨k1, event⟩ := pair
        obtain ⟨hmem, hlive, hstle, hst1, hnx1, hnum1, hsp1, hsub, hsorted⟩ :=
          next_event_ok hne
        by_cases hts : k1.test_stop = true
        · have hstep : runLoop (fuel + 1) k =
              ⟨k1, [event], [], some event, .stoppedByPred⟩ := by
            simp [runLoop, hem, hne, hts]
          rw [hstep]
          refine ⟨?_, ?_, ?_, ?_, ?_, ?_, ?_⟩
          · intro e hDom x hx
            simp only [List.mem_singleton] at hx
            subst hx
            exact hDom.2.2 x hmem
          · intro _; simp
          · intro evid hNL x hx
            simp only [List.mem_singleton] at hx
            subst hx
            exact next_event_not_noLive hNL hne
          · intro x hx; simp at hx
          · intro _; simpa using hnum1
          · intro _
            exact ⟨event, rfl, hst1, List.mem_singleton_self event,
              fun _ x hx => by simp at hx⟩
          · intro hcon; simp at hcon
        · cases hfn : event.fn with
          | none =>
            have hstep : runLoop (fuel + 1) k =
                { runLoop fuel k1 with
                  popped := event :: (runLoop fuel k1).popped } := by
              simp [runLoop, hem, hne, hts, hfn]
            rw [hstep]
            obtain ⟨ih1, ih2, ih3, ih4, ih5, ih6, ih7⟩ := ih k1
            refine ⟨?_, ?_, ?_, ?_, ?_, ?_, ?_⟩
            · intro e hDom x hx
              simp only [List.mem_cons] at hx
              rcases hx with rfl | hx
              · exact hDom.2.2 x hmem
              · exact ih1 e (Dominated_next_event hDom hne) x hx
            · intro hInv
              obtain ⟨hInv1, hDom1⟩ := Inv_next_event hInv hne
              exact List.pairwise_cons.mpr ⟨ih1 event hDom1, ih2 hInv1⟩
            · intro evid hNL x hx
              simp only [List.mem_cons] at hx
              rcases hx with rfl | hx
              · exact next_event_not_noLive hNL hne
              · exact ih3 evid (NoLive_next_event hNL hne) x hx
            · intro x hx
              obtain ⟨hp, hs⟩ := ih4 x hx
              exact ⟨List.mem_cons_of_mem _ hp, hs⟩
            · intro ho
              have := ih5 ho
              simpa [hnum1] using this
            · intro ho
              obtain ⟨er, he1, he2, he3, he4⟩ := ih6 ho
              refine ⟨er, he1, he2, List.mem_cons_of_mem _ he3, ?_⟩
              intro hInv
              exact he4 (Inv_next_event hInv hne).1
            · intro ho
              obtain ⟨hr, hi⟩ := ih7 ho
              refine ⟨hr, ?_⟩
              simp [List.filter_cons, hfn, hi]
          | some hh =>
            cases hex : hh.exec k1 with
            | error err =>
              have hstep : runLoop (fuel + 1) k =
                  ⟨k1, [event], [event], none, .failed err⟩ := by
                simp [runLoop, hem, hne, hts, hfn, hex]
              rw [hstep]
              refine ⟨?_, ?_, ?_, ?_, ?_, ?_, ?_⟩
              · intro e hDom x hx
                simp only [List.mem_singleton] at hx
                subst hx
                exact hDom.2.2 x hmem
              · intro _; simp
              · intro evid hNL x hx
                simp only [List.mem_singleton] at hx
                subst hx
                exact next_event_not_noLive hNL hne
              · intro x hx
                simp only [List.mem_singleton] at hx
                subst hx
                exact ⟨List.mem_singleton_self x, by simp [hfn]⟩
              · intro ho; simp at ho
              · intro ho; simp at ho
              · intro ho; simp at ho
            | ok k2 =>
              have hstep : runLoop (fuel + 1) k =
                  { runLoop fuel { k2 with num_events := k2.num_events + 1 } with
                    popped := event ::
                      (runLoop fuel
                        { k2 with num_events := k2.num_events + 1 }).popped,
                    invoked := event ::
                      (runLoop fuel
                        { k2 with num_events := k2.num_events + 1 }).invoked } := by
                simp [runLoop, hem, hne, hts, hfn, hex]
              rw [hstep]
              obtain ⟨hexI, hexD, hexN, hexs, hexn, hexp, hexnx⟩ :=
                exec_ok_props hh k1 k2 hex
              obtain ⟨ih1, ih2, ih3, ih4, ih5, ih6, ih7⟩ :=
                ih { k2 with num_events := k2.num_events + 1 }
              refine ⟨?_, ?_, ?_, ?_, ?_, ?_, ?_⟩
              · intro e hDom x hx
                simp only [List.mem_cons] at hx
                rcases hx with rfl | hx
                · exact hDom.2.2 x hmem
                · exact ih1 e (hexD e (Dominated_next_event hDom hne)) x hx
              · intro hInv
                obtain ⟨hInv1, hDom1⟩ := Inv_next_event hInv hne
                exact List.pairwise_cons.mpr
                  ⟨ih1 event (hexD event hDom1), ih2 (hexI hInv1)⟩
              · intro evid hNL x hx
                simp only [List.mem_cons] at hx
                rcases hx with rfl | hx
                · exact next_event_not_noLive hNL hne
                · exact ih3 evid (hexN evid (NoLive_next_event hNL hne)) x hx
              · intro x hx
                simp only [List.mem_cons] at hx
                rcases hx with rfl | hx
                · exact ⟨List.mem_cons_self _ _, by simp [hfn]⟩
                · obtain ⟨hp, hs⟩ := ih4 x hx
                  exact ⟨List.mem_cons_of_mem _ hp, hs⟩
              · intro ho
                have := ih5 ho
                simp only [List.length_cons]
                rw [this]
                simp only [hexn, hnum1]
                omega
              · intro ho
                obtain ⟨er, he1, he2, he3, he4⟩ := ih6 ho
                refine ⟨er, he1, he2, List.mem_cons_of_mem _ he3, ?_⟩
                intro hInv x hx
                obtain ⟨hInv1, hDom1⟩ := Inv_next_event hInv hne
                simp only [List.mem_cons] at hx
                rcases hx with rfl | hx
                · exact ih1 x (hexD x hDom1) er he3
                · exact he4 (hexI hInv1) x hx
              · intro ho
                obtain ⟨hr, hi⟩ := ih7 ho
                refine ⟨hr, ?_⟩
                simp [List.filter_cons, hfn, hi]

/-- Combined properties of `Kernel.run`, lifting `runLoop_props` over the
`initialize`/`init` callbacks and the `fin` callback. -/
theorem run_props (fuel : Nat) (k : Kernel) (di ic fc : Option Handler) :
    (k.Inv → (Kernel.run fuel k di ic fc).popped.Pairwise A_Event.lt) ∧
    (∀ evid, NoLive evid k →
      ∀ x ∈ (Kernel.run fuel k di ic fc).popped, x.id ≠ evid) ∧
    (∀ x ∈ (Kernel.run fuel k di ic fc).invoked,
      x ∈ (Kernel.run fuel k di ic fc).popped ∧ x.fn.isSome = true) ∧
    ((Kernel.run fuel k di ic fc).outcome = .drained ∨
        (Kernel.run fuel k di ic fc).outcome = .stoppedByPred →
      (Kernel.run fuel k di ic fc).kernel.num_events =
          k.num_events + (Kernel.run fuel k di ic fc).invoked.length ∧
        (Kernel.run fuel k di ic fc).finCalled = fc.isSome) ∧
    ((Kernel.run fuel k di ic fc).outcome = .stoppedByPred →
      ∃ er, (Kernel.run fuel k di ic fc).rejected = some er ∧
        (Kernel.run fuel k di ic fc).kernel.stime = er.stime ∧
        er ∈ (Kernel.run fuel k di ic fc).popped ∧
        (k.Inv → ∀ x ∈ (Kernel.run fuel k di ic fc).invoked,
          A_Event.lt x er)) ∧
    ((Kernel.run fuel k di ic fc).outcome = .drained →
      (Kernel.run fuel k di ic fc).invoked =
        (Kernel.run fuel k di ic fc).popped.filter (fun x => x.fn.isSome)) := by
  cases hdi : execOptCallback di k with
  | error e =>
    have hstep : Kernel.run fuel k di ic fc = ⟨k, [], [], none, .failed e, false⟩ := by
      simp [Kernel.run, hdi]
    rw [hstep]
    simp
  | ok k1 =>
    cases hic : execOptCallback ic k1 with
    | error e =>
      have hstep : Kernel.run fuel k di ic fc =
          ⟨k1, [], [], none, .failed e, false⟩ := by
        simp [Kernel.run, hdi, hic]
      rw [hstep]
      simp
    | ok k2 =>
      obtain ⟨p1, p2, p3, p4, p5, p6, p7⟩ := runLoop_props fuel k2
      obtain ⟨hdiI, hdiD, hdiN, hdis, hdin, _, _⟩ := execOptCallback_ok_props hdi
      obtain ⟨hicI, hicD, hicN, hics, hicn, _, _⟩ := execOptCallback_ok_props hic
      have hInv2 : k.Inv → k2.Inv := fun h => hicI (hdiI h)
      have hNL2 : ∀ evid, NoLive evid k → NoLive evid k2 :=
        fun evid h => hicN evid (hdiN evid h)
      have hnum2 : k2.num_events = k.num_events := by rw [hicn, hdin]
      cases houtc : (runLoop fuel k2).outcome with
      | failed e =>
        have hstep : Kernel.run fuel k di ic fc =
            ⟨(runLoop fuel k2).kernel, (runLoop fuel k2).popped,
              (runLoop fuel k2).invoked, (runLoop fuel k2).rejected,
              .failed e, false⟩ := by
          simp [Kernel.run, hdi, hic, houtc]
        rw [hstep]
        refine ⟨fun h => p2 (hInv2 h), fun evid h => p3 evid (hNL2 evid h),
          p4, ?_, ?_, ?_⟩ <;> intro ho <;> simp at ho
      | outOfFuel =>
        have hstep : Kernel.run fuel k di ic fc =
            ⟨(runLoop fuel k2).kernel, (runLoop fuel k2).popped,
              (runLoop fuel k2).invoked, (runLoop fuel k2).rejected,
              .outOfFuel, false⟩ := by
          simp [Kernel.run, hdi, hic, houtc]
        rw [hstep]
        refine ⟨fun h => p2 (hInv2 h), fun evid h => p3 evid (hNL2 evid h),
          p4, ?_, ?_, ?_⟩ <;> intro ho <;> simp at ho
      | drained =>
        cases hfc : execOptCallback fc (runLoop fuel k2).kernel with
        | error e =>
          have hstep : Kernel.run fuel k di ic fc =
              ⟨(runLoop fuel k2).kernel, (runLoop fuel k2).popped,
                (runLoop fuel k2).invoked, (runLoop fuel k2).rejected,
                .failed e, fc.isSome⟩ := by
            simp [Kernel.run, hdi, hic, houtc, hfc]
          rw [hstep]
          refine ⟨fun h => p2 (hInv2 h), fun evid h => p3 evid (hNL2 evid h),
            p4, ?_, ?_, ?_⟩ <;> intro ho <;> simp at ho
        | ok k3 =>
          obtain ⟨_, _, _, hfcs, hfcn, _, _⟩ := execOptCallback_ok_props hfc
          have hstep : Kernel.run fuel k di ic fc =
              ⟨k3, (runLoop fuel k2).popped, (runLoop fuel k2).invoked,
                (runLoop fuel k2).rejected, .drained, fc.isSome⟩ := by
            simp [Kernel.run, hdi, hic, houtc, hfc]
          rw [hstep]
          refine ⟨fun h => p2 (hInv2 h), fun evid h => p3 evid (hNL2 evid h),
            p4, ?_, ?_, ?_⟩
          · intro _
            refine ⟨?_, rfl⟩
            rw [hfcn, p5 (Or.inl houtc), hnum2]
          · intro ho; simp at ho
          · intro _
            exact (p7 houtc).2
      | stoppedByPred =>
        cases hfc : execOptCallback fc (runLoop fuel k2).kernel with
        | error e =>
          have hstep : Kernel.run fuel k di ic fc =
              ⟨(runLoop fuel k2).kernel, (runLoop fuel k2).popped,
                (runLoop fuel k2).invoked, (runLoop fuel k2).rejected,
                .failed e, fc.isSome⟩ := by
            simp [Kernel.run, hdi, hic, houtc, hfc]
          rw [hstep]
          refine ⟨fun h => p2 (hInv2 h), fun evid h => p3 evid (hNL2 evid h),
            p4, ?_, ?_, ?_⟩ <;> intro ho <;> simp at ho
        | ok k3 =>
          obtain ⟨_, _, _, hfcs, hfcn, _, _⟩ := execOptCallback_ok_props hfc
          have hstep : Kernel.run fuel k di ic fc =
              ⟨k3, (runLoop fuel k2).popped, (runLoop fuel k2).invoked,
                (runLoop fuel k2).rejected, .stoppedByPred, fc.isSome⟩ := by
            simp [Kernel.run, hdi, hic, houtc, hfc]
          rw [hstep]
          refine ⟨fun h => p2 (hInv2 h), fun evid h => p3 evid (hNL2 evid h),
            p4, ?_, ?_, ?_⟩
          · intro _
            refine ⟨?_, rfl⟩
            rw [hfcn, p5 (Or.inr houtc), hnum2]
          · intro _
            obtain ⟨er, he1, he2, he3, he4⟩ := p6 houtc
            exact ⟨er, he1, by rw [hfcs, he2], he3,
              fun hInv => he4 (hInv2 hInv)⟩
          · intro ho; simp at ho

/-- After `remove_event evid`, no live event with id `evid` remains in
the queue (and the id is never re-allocated). -/
theorem remove_event_noLive {k : Kernel} {evid : Nat} (hIds : IdsInv k)
    (hlt : evid < k.next_evid) : NoLive evid (k.remove_event evid).1 := by
  obtain ⟨hidx, hnd⟩ := hIds
  cases hlook : k.lookupEvid evid with
  | none =>
    have hres : (k.remove_event evid).1 = k := by
      unfold Kernel.remove_event
      rw [hlook]
    rw [hres]
    refine ⟨?_, hlt⟩
    intro e he hid
    by_contra hrem
    have hlive : e.removed = false := by
      cases h : e.removed
      · rfl
      · exact absurd h hrem
    have hcont : k.evids.contains evid = true := by
      have := hidx e he hlive
      rwa [hid] at this
    unfold Kernel.lookupEvid at hlook
    rw [if_pos hcont] at hlook
    have := List.find?_eq_none.mp hlook e he
    simp [hid] at this
  | some event =>
    have hfind : k.queue.find? (fun e => e.id == evid) = some event := by
      unfold Kernel.lookupEvid at hlook
      by_cases hc : k.evids.contains evid = true
      · rwa [if_pos hc] at hlook
      · rw [if_neg hc] at hlook
        exact absurd hlook (by simp)
    have hevmem : event ∈ k.queue := List.mem_of_find?_eq_some hfind
    have hevid : event.id = evid := by simpa using List.find?_some hfind
    cases hrem : event.removed with
    | true =>
      have hres : (k.remove_event evid).1 =
          { k with evids := k.evids.filter (fun i => i != evid) } := by
        unfold Kernel.remove_event
        rw [hlook]
        simp [hrem]
      rw [hres]
      refine ⟨?_, hlt⟩
      intro e he hid
      have heq : e = event :=
        List.inj_on_of_nodup_map hnd he hevmem (by rw [hid, hevid])
      rw [heq, hrem]
    | false =>
      have hres : (k.remove_event evid).1 =
          { k with evids := k.evids.filter (fun i => i != evid),
                   queue := markRemoved k.queue evid,
                   queue_size := k.queue_size - 1 } := by
        unfold Kernel.remove_event
        rw [hlook]
        simp [hrem]
      rw [hres]
      refine ⟨?_, hlt⟩
      intro e he hid
      unfold markRemoved at he
      rcases List.mem_map.mp he with ⟨y, hy, rfl⟩
      by_cases hyid : (y.id == evid) = true
      · simp [hyid]
      · simp only [hyid, if_false, Bool.false_eq_true] at hid ⊢
        exact absurd hid (by simpa using hyid)

/-- Claim C1: in any run of the dispatch loop from a state satisfying the
heap invariant, any two live events popped in sequence have
non-decreasing fire-times, with ties broken by strictly increasing id;
and `add_event` allocates ids strictly increasingly, so events scheduled
at the same simulated time are dispatched in FIFO scheduling order. -/
theorem claim1_fifo_ordering (fuel : Nat) (k : Kernel)
    (di ic fc : Option Handler) (hInv : k.Inv) :
    List.Pairwise
      (fun a b : A_Event =>
        a.stime ≤ b.stime ∧ (a.stime = b.stime → a.id < b.id))
      (Kernel.run fuel k di ic fc).popped ∧
    ∀ d h a kw k1 i, k.add_event d h a kw = .ok (k1, i) →
      i = k.next_evid ∧ k1.next_evid = k.next_evid + 1 := by
  constructor
  · exact ((run_props fuel k di ic fc).1 hInv).imp
      (fun hab => by unfold A_Event.lt at hab; omega)
  · intro d h a kw k1 i hok
    obtain ⟨_, rfl, rfl⟩ := add_event_ok_eq hok
    exact ⟨rfl, rfl⟩

/-- Witness for claim C1 at a concrete kernel holding two events with
equal fire-times. -/
theorem claim1_fifo_ordering_witness :
    Kernel.Inv demoC1 ∧
    List.Pairwise
      (fun a b : A_Event =>
        a.stime ≤ b.stime ∧ (a.stime = b.stime → a.id < b.id))
      (Kernel.run 5 demoC1 none none none).popped :=
  ⟨by decide, (claim1_fifo_ordering 5 demoC1 none none none (by decide)).1⟩

/-- Claim C2: when a stop predicate holds after an event is popped, the
time has already advanced to the popped event's fire-time, the event is
not invoked, `num_events` counts only the completed invocations, and the
`fin` callback is still invoked; the final `stime` equals the rejected
event's fire-time. -/
theorem claim2_stop_predicate (fuel : Nat) (k : Kernel)
    (di ic fc : Option Handler) (hInv : k.Inv)
    (hstop : (Kernel.run fuel k di ic fc).outcome = .stoppedByPred) :
    ∃ er, (Kernel.run fuel k di ic fc).rejected = some er ∧
      (Kernel.run fuel k di ic fc).kernel.stime = er.stime ∧
      er ∉ (Kernel.run fuel k di ic fc).invoked ∧
      (Kernel.run fuel k di ic fc).kernel.num_events =
        k.num_events + (Kernel.run fuel k di ic fc).invoked.length ∧
      (Kernel.run fuel k di ic fc).finCalled = fc.isSome := by
  obtain ⟨_, _, _, p4, p5, _⟩ := run_props fuel k di ic fc
  obtain ⟨er, h1, h2, h3, h4⟩ := p5 hstop
  obtain ⟨hnum, hfin⟩ := p4 (Or.inr hstop)
  refine ⟨er, h1, h2, ?_, hnum, hfin⟩
  intro hmem
  exact A_Event.lt_irrefl er (h4 hInv er hmem)

/-- Witness for claim C2 at the spec's scenario: limit 10, one event at
fire-time 15, with a `fin` callback. -/
theorem claim2_stop_predicate_witness :
    Kernel.Inv demoC2 ∧
    (Kernel.run 5 demoC2 none none (some .done)).outcome = .stoppedByPred ∧
    ∃ er, (Kernel.run 5 demoC2 none none (some .done)).rejected = some er ∧
      (Kernel.run 5 demoC2 none none (some .done)).kernel.stime = er.stime ∧
      er ∉ (Kernel.run 5 demoC2 none none (some .done)).invoked ∧
      (Kernel.run 5 demoC2 none none (some .done)).kernel.num_events =
        demoC2.num_events +
          (Kernel.run 5 demoC2 none none (some .done)).invoked.length ∧
      (Kernel.run 5 demoC2 none none (some .done)).finCalled =
        (some Handler.done).isSome :=
  ⟨by decide, by decide,
    claim2_stop_predicate 5 demoC2 none none (some .done) (by decide) (by decide)⟩

/-- Claim C3: after `cancel(evid)` on a sane kernel, no event carrying
that id is popped or invoked in the remainder of the run, whatever the
handlers schedule or cancel; and cancelling an unknown (already-fired or
already-cancelled) id is a silent no-op returning `None` and leaving the
kernel unchanged. -/
theorem claim3_cancellation (fuel : Nat) (k : Kernel)
    (di ic fc : Option Handler) (evid : Nat) :
    (IdsInv k → evid < k.next_evid →
      (∀ x ∈ (Kernel.run fuel (k.remove_event evid).1 di ic fc).popped,
        x.id ≠ evid) ∧
      ∀ x ∈ (Kernel.run fuel (k.remove_event evid).1 di ic fc).invoked,
        x.id ≠ evid) ∧
    (k.lookupEvid evid = none → k.remove_event evid = (k, none)) := by
  constructor
  · intro hIds hlt
    have hNL := remove_event_noLive hIds hlt
    obtain ⟨_, p2, p3, _⟩ := run_props fuel (k.remove_event evid).1 di ic fc
    refine ⟨p2 evid hNL, ?_⟩
    intro x hx
    exact p2 evid hNL x (p3 x hx).1
  · intro hlook
    unfold Kernel.remove_event
    rw [hlook]

/-- Witness for claim C3: cancelling id 0 in `demoC3` and running, plus
the no-op behaviour at the unknown id 7. -/
theorem claim3_cancellation_witness :
    IdsInv demoC3 ∧ 0 < demoC3.next_evid ∧
    ((∀ x ∈ (Kernel.run 5 (demoC3.remove_event 0).1 none none none).popped,
        x.id ≠ 0) ∧
      ∀ x ∈ (Kernel.run 5 (demoC3.remove_event 0).1 none none none).invoked,
        x.id ≠ 0) ∧
    demoC3.lookupEvid 7 = none ∧
    demoC3.remove_event 7 = (demoC3, none) :=
  ⟨by decide, by decide,
    (claim3_cancellation 5 demoC3 none none none 0).1 (by decide) (by decide),
    by decide,
    (claim3_cancellation 5 demoC3 none none none 7).2 (by decide)⟩

/-- Claim C4: `add_event` with a negative delay fails with the
negative-delay error and ingests nothing (no successor state exists);
with a non-negative delay it returns the freshly allocated id and inserts
exactly one event with fire-time `stime + delay`. -/
theorem claim4_negative_delay (k : Kernel) (d : Int) (h : Option Handler)
    (a : List Nat) (kw : Option (List (String × Nat))) :
    (d < 0 → k.add_event d h a kw = .error .negativeDelay) ∧
    (0 ≤ d → ∃ k1, k.add_event d h a kw = .ok (k1, k.next_evid) ∧
      ({ id := k.next_evid, stime := k.stime + d, fn := h, args := a,
         kwargs := kw.getD [], removed := false } : A_Event) ∈ k1.queue ∧
      k1.queue.length = k.queue.length + 1 ∧
      k1.next_evid = k.next_evid + 1) := by
  constructor
  · intro hd
    unfold Kernel.add_event
    rw [if_pos hd]
  · intro hd
    refine ⟨{ k with evids := k.evids ++ [k.next_evid], queue := heappush k.queue { id := k.next_evid, stime := k.stime + d, fn := h, args := a, kwargs := kw.getD [], removed := false }, queue_size := k.queue_size + 1, next_evid := k.next_evid + 1 }, ?_, ?_, ?_, ?_⟩
    · unfold Kernel.add_event
      rw [if_neg (by omega)]
    · exact (heappush_mem _ _ _).mpr (Or.inr rfl)
    · exact heappush_length _ _
    · rfl

/-- Witness for claim C4 at delay -1 (rejected) and delay 3 (accepted)
on the initial kernel. -/
theorem claim4_negative_delay_witness :
    ((-1 : Int) < 0 ∧
      Kernel.initial.add_event (-1) none [] none = .error .negativeDelay) ∧
    (0 ≤ (3 : Int) ∧
      ∃ k1, Kernel.initial.add_event 3 none [] none =
          .ok (k1, Kernel.initial.next_evid) ∧
        ({ id := Kernel.initial.next_evid,
           stime := Kernel.initial.stime + 3, fn := none, args := [],
           kwargs := [], removed := false } : A_Event) ∈ k1.queue ∧
        k1.queue.length = Kernel.initial.queue.length + 1 ∧
        k1.next_evid = Kernel.initial.next_evid + 1) :=
  ⟨⟨by decide,
      (claim4_negative_delay Kernel.initial (-1) none [] none).1 (by decide)⟩,
    ⟨by decide,
      (claim4_negative_delay Kernel.initial 3 none [] none).2 (by decide)⟩⟩

/-- Claim C5: `setup` with a positive limit appends exactly the strict
predicate `stime > limit` (so an event firing exactly at the limit does
not trigger the stop test, while any strictly later time does), `setup`
with limit 0 or with no limit registers nothing, and successive calls
accumulate predicates. -/
theorem claim5_setup (k : Kernel) (lim : Int) :
    (0 < lim →
      (k.setup (some lim)).stop_predicates = k.stop_predicates ++ [⟨lim⟩] ∧
      ∀ k1 : Kernel, k1.stop_predicates = [⟨lim⟩] →
        (k1.test_stop = true ↔ lim < k1.stime)) ∧
    k.setup (some 0) = k ∧ k.setup none = k := by
  refine ⟨?_, by simp [Kernel.setup], rfl⟩
  intro hl
  refine ⟨by simp [Kernel.setup, hl], ?_⟩
  intro k1 hsp
  simp [Kernel.test_stop, hsp, StopPred.eval]

/-- Witness for claim C5 at limit 10: the predicate list after `setup`,
and the strictness of the installed predicate at `stime = 10` versus
`stime = 11`. -/
theorem claim5_setup_witness :
    (0 : Int) < 10 ∧
    (Kernel.initial.setup (some 10)).stop_predicates = [⟨10⟩] ∧
    ({ Kernel.initial with stime := 10, stop_predicates := [⟨10⟩] } : Kernel).test_stop = false ∧
    ({ Kernel.initial with stime := 11, stop_predicates := [⟨10⟩] } : Kernel).test_stop = true ∧
    Kernel.initial.setup (some 0) = Kernel.initial ∧
    Kernel.initial.setup none = Kernel.initial := by
  obtain ⟨h1, h2, h3⟩ := claim5_setup Kernel.initial 10
  obtain ⟨hsp, hstrict⟩ := h1 (by decide)
  refine ⟨by decide, by simpa using hsp, by decide, ?_, h2, h3⟩
  exact (hstrict { Kernel.initial with stime := 11, stop_predicates := [⟨10⟩] } rfl).mpr (by decide)

/-- Claim C10: `add_event` accepts a missing (`None`) handler for any
non-negative delay; a popped event still advances the simulated time to
its fire-time whether or not it has a handler; and on a drained run the
invoked events are exactly the popped events carrying a handler, with
`num_events` counting exactly those invocations. -/
theorem claim10_none_handler (fuel : Nat) (k kp k1 : Kernel)
    (di ic fc : Option Handler) (d : Int) (a : List Nat)
    (kw : Option (List (String × Nat))) (ev : A_Event) :
    (0 ≤ d → ∃ k2, k.add_event d none a kw = .ok (k2, k.next_evid)) ∧
    (kp.next_event = .ok (k1, ev) → k1.stime = ev.stime) ∧
    ((Kernel.run fuel k di ic fc).outcome = .drained →
      (Kernel.run fuel k di ic fc).invoked =
        (Kernel.run fuel k di ic fc).popped.filter (fun x => x.fn.isSome) ∧
      (Kernel.run fuel k di ic fc).kernel.num_events =
        k.num_events + (Kernel.run fuel k di ic fc).invoked.length) := by
  refine ⟨?_, ?_, ?_⟩
  · intro hd
    refine ⟨{ k with evids := k.evids ++ [k.next_evid], queue := heappush k.queue { id := k.next_evid, stime := k.stime + d, fn := none, args := a, kwargs := kw.getD [], removed := false }, queue_size := k.queue_size + 1, next_evid := k.next_evid + 1 }, ?_⟩
    unfold Kernel.add_event
    rw [if_neg (by omega)]
  · intro hne
    exact (next_event_ok hne).2.2.2.1
  · intro hdr
    obtain ⟨_, _, _, p4, _, p6⟩ := run_props fuel k di ic fc
    exact ⟨p6 hdr, (p4 (Or.inl hdr)).1⟩

/-- Witness for claim C10: a handler-less event at time 3 plus a normal
event at time 4; the run drains, pops both, invokes only the second. -/
theorem claim10_none_handler_witness :
    (0 ≤ (2 : Int) ∧
      ∃ k2, demoC10.add_event 2 none [] none = .ok (k2, demoC10.next_evid)) ∧
    (Kernel.run 5 demoC10 none none none).outcome = .drained ∧
    ((Kernel.run 5 demoC10 none none none).invoked =
        (Kernel.run 5 demoC10 none none none).popped.filter
          (fun x => x.fn.isSome) ∧
      (Kernel.run 5 demoC10 none none none).kernel.num_events =
        demoC10.num_events +
          (Kernel.run 5 demoC10 none none none).invoked.length) :=
  ⟨⟨by decide,
      (claim10_none_handler 5 demoC10 demoC10 demoC10 none none none 2 []
          none ⟨0, 0, none, [], [], false⟩).1 (by decide)⟩,
    by decide,
    (claim10_none_handler 5 demoC10 demoC10 demoC10 none none none 2 []
        none ⟨0, 0, none, [], [], false⟩).2.2 (by decide)⟩

/-- Result-accumulation lemma for the `for a_params in params` loop of
`simulate`: left-folding appends produces the map, in order. -/
theorem foldl_append_eq_map {α β : Type} (f : α → β) (l : List α)
    (acc : List β) :
    l.foldl (fun results x => results ++ [f x]) acc = acc ++ l.map f := by
  induction l generalizing acc with
  | nil => simp
  | cons x xs ih => simp [ih]

/-- Claim C9: `simulate` with a list of parameter bags performs one
independent run per bag — each from the fresh initial kernel, a function
of its own bag alone — and returns the simulator contexts in bag order;
with a non-list `params` it performs a single run and returns a single
context. -/
theorem claim9_parameter_sweep (fuel : Nat) (di ic fc : Option Handler)
    (ps : List ParamBag) (p : ParamBag) (lim : Option Int) :
    simulate fuel di ic fc (.many ps) lim =
      .many (ps.map (fun q => simulateOne fuel di ic fc q (lim.getD 0))) ∧
    simulate fuel di ic fc (.single p) lim =
      .one (simulateOne fuel di ic fc p (lim.getD 0)) ∧
    simulate fuel di ic fc .nothing lim =
      .one (simulateOne fuel di ic fc [] (lim.getD 0)) := by
  refine ⟨?_, rfl, rfl⟩
  simp [simulate, foldl_append_eq_map]

/-- Claim C6 (code bug): `children.add` stores the child in the parent's
children dict but notifies nobody — the source `Model` has no
`_set_parent` and never reassigns `__parent` after `__init__` — so after
the first mutation the child sits in the parent's mapping while its
parent link is still `None` instead of the parent. -/
theorem claim6_no_parent_notification :
    (World.childrenAdd [(0, ⟨none, [], []⟩), (1, ⟨none, [], []⟩)] 0 "pong"
        (.single 1)).getModel 0 =
      some ⟨none, [("pong", .single 1)], []⟩ ∧
    (World.childrenAdd [(0, ⟨none, [], []⟩), (1, ⟨none, [], []⟩)] 0 "pong"
        (.single 1)).getModel 1 =
      some ⟨none, [], []⟩ := by constructor <;> rfl

/-- Claim C7 (code bug): the connections manager stores the assigned
peer itself — the source defines no connection record type, so there is
no `module` attribute, no `delay`, and no `send`; `get` returns the raw
peer. -/
theorem claim7_no_connection_record :
    ModulesManager.get (ModulesManager.add [] "pong" (.single 42)) "pong" =
      .ok (.single 42) := rfl

/-- Claim C8 (code bug): the `get` of `_ModulesManager` and of
`HandlersDict` takes no default argument and raises `KeyError` on an
absent key, exactly like the indexed form, instead of returning a
supplied default. -/
theorem claim8_get_has_no_default :
    ModulesManager.get [] "xxx" = .error .keyError ∧
    ModulesManager.get [("pong", .single 1)] "xxx" = .error .keyError ∧
    HandlersDict.get [] "xxx" = .error .keyError ∧
    HandlersDict.get [("alarm", 3)] "xxx" = .error .keyError :=
  ⟨rfl, rfl, rfl, rfl⟩
